import Mathlib

/-!
Shallow embedding of `src/CollaborativeEditor.js` (the `CollaborativeEditor`
React component).

Strings are modelled as `List Char` (JS strings are sequences of characters;
the operations used by the component — `substring`, `split`, `length`,
concatenation — are all character-wise).  Timestamps (`new Date()` /
`toISOString`) are modelled as an abstract `Nat` clock value passed to the
operations that read the clock.  The React `useState` cells become fields of an
explicit `EditorState` record, and each event handler becomes a function
`EditorState → EditorState` (with the values the handler reads from the DOM
event / textarea passed as arguments).  The 1000 ms debounce timer of
`handleContentChange` is modelled by a `pendingCommit` field: scheduling the
timeout stores the captured content (overwriting any previously pending
callback, which models `clearTimeout` + `setTimeout`), and `debounceFire`
runs the pending callback, if any.
-/

/-- JS `l.slice(0, e)` for an arbitrary (possibly negative) end index `e`:
a negative end index counts from the end of the array. -/
def jsSliceTo {α : Type} (l : List α) (e : Int) : List α :=
  if e < 0 then l.take (((l.length : Int) + e).toNat) else l.take e.toNat

/-- JS `l.slice(-50)`: the last (at most) 50 elements. -/
def keepLast50 {α : Type} (l : List α) : List α :=
  l.drop (l.length - 50)

/-- JS `l[i]` for an `Int` index.  An out-of-range access yields `undefined`
in JS; here it is modelled as `[]` (the empty string).  None of the theorems
below evaluate an out-of-range access. -/
def jsNth (l : List (List Char)) (i : Int) : List Char :=
  if i < 0 then [] else (l.getD i.toNat [])

/-- JS `s.substring(a, b)`: both indices are clamped to `[0, s.length]` and
swapped if `a > b`; the result is the slice between them.  (`take` and `drop`
clamp by themselves, so only the swap needs to be explicit.) -/
def jsSubstring (l : List Char) (a b : Nat) : List Char :=
  (l.take (max a b)).drop (min a b)

/-- JS `s.substring(a)`: the suffix from index `a` (clamped). -/
def jsSubstringFrom (l : List Char) (a : Nat) : List Char :=
  l.drop a

/-- JS `s.split('\n')`: the list of line-break-delimited segments.
`"".split('\n')` is `[""]`, and a trailing `'\n'` produces a trailing empty
segment, exactly as in JS. -/
def splitNl : List Char → List (List Char)
  | [] => [[]]
  | c :: cs =>
    if c = '\n' then [] :: splitNl cs
    else
      match splitNl cs with
      | [] => [[c]]
      | s :: rest => (c :: s) :: rest

/-- JS `name.replace(/\.[^/.]+$/, "")`: strip a trailing extension — a final
`'.'` followed by one or more characters none of which is `'.'` or `'/'`.
If no such suffix exists the name is unchanged. -/
def stripExt (name : List Char) : List Char :=
  let rev := name.reverse
  let ext := rev.takeWhile (fun c => c ≠ '.' ∧ c ≠ '/')
  match rev.drop ext.length with
  | '.' :: rest => if ext.length > 0 then rest.reverse else name
  | _ => name

/-- The three formatting buttons wired to `applyFormatting`. -/
inductive Format where
  | bold
  | italic
  | underline
deriving DecidableEq, Repr

/-- The `formatting.align` values used by the component. -/
inductive Align where
  | left
  | center
  | right
deriving DecidableEq, Repr

/-- The `document` state cell: `{ title, content, lastModified, version }`. -/
structure Doc where
  title : List Char
  content : List Char
  lastModified : Nat
  version : Nat
deriving DecidableEq, Repr

/-- One entry of the `users` state cell:
`{ id, name, color, cursor, active }`. -/
structure User where
  id : Nat
  name : List Char
  color : List Char
  cursor : Nat
  active : Bool
deriving DecidableEq, Repr

/-- The component state: the `useState` cells of `CollaborativeEditor`,
plus `pendingCommit` modelling the debounce timeout of
`handleContentChange` (the content captured by the scheduled callback). -/
structure EditorState where
  doc : Doc
  users : List User
  isTyping : Bool
  showUsers : Bool
  history : List (List Char)
  historyIndex : Int
  selectedText : List Char
  fmtBold : Bool
  fmtItalic : Bool
  fmtUnderline : Bool
  fmtAlign : Align
  pendingCommit : Option (List Char)
deriving DecidableEq, Repr

/-- The initial state of the component (`t0` is the clock value at mount,
read by `new Date().toISOString()` in the `document` initialiser). -/
def initialState (t0 : Nat) : EditorState :=
  { doc := { title := "Untitled Document".data
             content := []
             lastModified := t0
             version := 1 }
    users := [ { id := 1, name := "You".data, color := "#3B82F6".data
                 cursor := 0, active := true }
             , { id := 2, name := "Alice".data, color := "#EF4444".data
                 cursor := 15, active := true }
             , { id := 3, name := "Bob".data, color := "#10B981".data
                 cursor := 32, active := false } ]
    isTyping := false
    showUsers := true
    history := []
    historyIndex := -1
    selectedText := []
    fmtBold := false
    fmtItalic := false
    fmtUnderline := false
    fmtAlign := Align.left
    pendingCommit := none }

/-- `saveToHistory(content)`:
`history = prev.slice(0, historyIndex + 1)`, `push(content)`,
`slice(-50)`; then `historyIndex` is incremented (unconditionally,
also when `slice(-50)` evicted an entry). -/
def saveToHistory (content : List Char) (s : EditorState) : EditorState :=
  { s with
    history := keepLast50 (jsSliceTo s.history (s.historyIndex + 1) ++ [content])
    historyIndex := s.historyIndex + 1 }

/-- `handleContentChange(e)`: `newContent = e.target.value`,
`cursorPosition = e.target.selectionStart`; replaces the content, stamps
`lastModified`, bumps `version`, moves the cursor of user 1 to `cursorPosition`,
sets the typing flag, and (re)schedules the debounced `saveToHistory`
callback capturing `newContent` (`clearTimeout` + `setTimeout`). -/
def handleContentChange (newContent : List Char) (cursorPosition : Nat)
    (now : Nat) (s : EditorState) : EditorState :=
  { s with
    doc := { s.doc with
             content := newContent
             lastModified := now
             version := s.doc.version + 1 }
    users := s.users.map fun u =>
      if u.id = 1 then { u with cursor := cursorPosition } else u
    isTyping := true
    pendingCommit := some newContent }

/-- The debounce timeout of `handleContentChange` firing after the quiet
interval: `setIsTyping(false); saveToHistory(newContent)` for the captured
`newContent`.  A no-op when no callback is pending. -/
def debounceFire (s : EditorState) : EditorState :=
  match s.pendingCommit with
  | none => s
  | some c =>
      saveToHistory c { s with isTyping := false, pendingCommit := none }

/-- `handleTitleChange(e)`: replaces the title only. -/
def handleTitleChange (newTitle : List Char) (s : EditorState) : EditorState :=
  { s with doc := { s.doc with title := newTitle } }

/-- `handleTextSelection()`: stores
`document.content.substring(selectionStart, selectionEnd)` as the selected
text (`a`, `b` are the selection bounds read from the textarea). -/
def handleTextSelection (a b : Nat) (s : EditorState) : EditorState :=
  { s with selectedText := jsSubstring s.doc.content a b }

/-- The `switch (format)` of `applyFormatting`: wrap the selected text in
the literal markers. -/
def wrapMarkers : Format → List Char → List Char
  | Format.bold, t => "**".data ++ t ++ "**".data
  | Format.italic, t => "*".data ++ t ++ "*".data
  | Format.underline, t => "__".data ++ t ++ "__".data

/-- Toggle the formatting flag named by `format`
(`setFormatting(prev => ({ ...prev, [format]: !prev[format] }))`). -/
def toggleFormat (format : Format) (s : EditorState) : EditorState :=
  match format with
  | Format.bold => { s with fmtBold := !s.fmtBold }
  | Format.italic => { s with fmtItalic := !s.fmtItalic }
  | Format.underline => { s with fmtUnderline := !s.fmtUnderline }

/-- `applyFormatting(format)`: a no-op on an empty selection; otherwise
splices the marker-wrapped selected text between
`content.substring(0, start)` and `content.substring(end)` (where `start`
and `end` are read from the textarea), and toggles the formatting flag.
Neither `version`, `lastModified`, nor the history is touched, and no
commit is scheduled. -/
def applyFormatting (format : Format) (start «end» : Nat)
    (s : EditorState) : EditorState :=
  if s.selectedText = [] then s
  else
    let beforeText := jsSubstring s.doc.content 0 start
    let afterText := jsSubstringFrom s.doc.content «end»
    let formattedText := wrapMarkers format s.selectedText
    toggleFormat format
      { s with doc := { s.doc with
                        content := beforeText ++ formattedText ++ afterText } }

/-- `undo()`: when `historyIndex > 0`, step back and load
`history[historyIndex - 1]` into the document content. -/
def undo (s : EditorState) : EditorState :=
  if s.historyIndex > 0 then
    { s with
      historyIndex := s.historyIndex - 1
      doc := { s.doc with content := jsNth s.history (s.historyIndex - 1) } }
  else s

/-- `redo()`: when `historyIndex < history.length - 1`, step forward and
load `history[historyIndex + 1]` into the document content. -/
def redo (s : EditorState) : EditorState :=
  if s.historyIndex < (s.history.length : Int) - 1 then
    { s with
      historyIndex := s.historyIndex + 1
      doc := { s.doc with content := jsNth s.history (s.historyIndex + 1) } }
  else s

/-- The enabled condition of the undo button: it is disabled when
`historyIndex <= 0`. -/
def canUndo (s : EditorState) : Bool :=
  s.historyIndex > 0

/-- The enabled condition of the redo button: it is disabled when
`historyIndex >= history.length - 1`. -/
def canRedo (s : EditorState) : Bool :=
  s.historyIndex < (s.history.length : Int) - 1

/-- `importDocument(e)` / `reader.onload`: replaces the content with the
text of the file, derives the title from the file name by stripping the
extension, bumps `version`, and calls `saveToHistory(content)` directly
(synchronously in the load handler, not through the debounce timer;
`lastModified` is not touched). -/
def importDocument (fileName fileText : List Char) (s : EditorState) :
    EditorState :=
  saveToHistory fileText
    { s with doc := { s.doc with
                      content := fileText
                      title := stripExt fileName
                      version := s.doc.version + 1 } }

/-- The simulated remote-cursor update (the `setInterval` callback): move
the cursor of the user with id `uid` to `pos`, leaving everyone else
unchanged. -/
def updateRemoteCursor (uid pos : Nat) (s : EditorState) : EditorState :=
  { s with users := s.users.map fun u =>
      if u.id = uid then { u with cursor := pos } else u }

/-- `getCursorPosition(position, content)`:
`lines = content.substring(0, position).split('\n')`;
line = `lines.length`, column = `lines[lines.length - 1].length + 1`. -/
def getCursorPosition (position : Nat) (content : List Char) : Nat × Nat :=
  let lines := splitNl (jsSubstring content 0 position)
  (lines.length, (lines.getLast?.getD []).length + 1)

/-- The discrete input events the component reacts to.  Each constructor
carries the values the corresponding handler reads from the environment
(event payloads, textarea selection bounds, the clock). -/
inductive Op where
  | contentChange (newContent : List Char) (cursorPosition : Nat) (now : Nat)
  | debounce
  | titleChange (newTitle : List Char)
  | textSelection (a b : Nat)
  | formatApply (format : Format) (a b : Nat)
  | undoClick
  | redoClick
  | importFile (fileName fileText : List Char)
  | remoteCursor (uid pos : Nat)

/-- Dispatch one input event to its handler. -/
def applyOp : Op → EditorState → EditorState
  | Op.contentChange c p now, s => handleContentChange c p now s
  | Op.debounce, s => debounceFire s
  | Op.titleChange t, s => handleTitleChange t s
  | Op.textSelection a b, s => handleTextSelection a b s
  | Op.formatApply f a b, s => applyFormatting f a b s
  | Op.undoClick, s => undo s
  | Op.redoClick, s => redo s
  | Op.importFile n t, s => importDocument n t s
  | Op.remoteCursor u p, s => updateRemoteCursor u p s

/-! ## Reference definitions

Independent characterisations (written from the specification wording, not
from the `split`-based code) used to state the cursor-position claims. -/

/-- Reference definition: the number of characters after the last line break
of `l` — the length of the final line-break-delimited segment of `l`. -/
def segLen : List Char → Nat
  | [] => 0
  | c :: cs =>
    if '\n' ∈ cs then segLen cs
    else if c = '\n' then cs.length
    else cs.length + 1

/-! ## Concrete states used by witnesses and counterexamples -/

/-- `n` debounced edits (each a content change followed by its debounce
timeout firing), starting from a fresh session: `n` commits in a row. -/
def edits : Nat → EditorState
  | 0 => initialState 0
  | n + 1 => debounceFire (handleContentChange ['x'] 0 0 (edits n))

/-- Commit "a", then "ab", then "abc" (three debounced edits). -/
def sABC : EditorState :=
  debounceFire (handleContentChange "abc".data 3 3
    (debounceFire (handleContentChange "ab".data 2 2
      (debounceFire (handleContentChange "a".data 1 1 (initialState 0))))))

/-- One `undo` after the three commits: content "ab", index 1. -/
def sUndo1 : EditorState := undo sABC

/-- Two `undo` steps after the three commits: content "a", index 0. -/
def sUndo2 : EditorState := undo sUndo1

/-- Commit "az" (a debounced edit) after the two undos. -/
def sAz : EditorState := debounceFire (handleContentChange "az".data 2 4 sUndo2)

/-- A state with a 2-character document and the selection "ab" stored. -/
def selState : EditorState :=
  handleTextSelection 0 2 (handleContentChange "ab".data 2 5 (initialState 0))

/-- `sUndo1` after bold formatting of the whole (selected) content:
content "**ab**", while the history still holds ["a","ab","abc"] at index 1. -/
def sFmt : EditorState :=
  applyFormatting Format.bold 0 2 (handleTextSelection 0 2 sUndo1)

/-- A content change whose reported caret position (100) exceeds the length
of the new content (0). -/
def cex3State : EditorState := handleContentChange [] 100 0 (initialState 0)

/-! ## Helper lemmas -/

theorem splitNl_ne_nil (l : List Char) : splitNl l ≠ [] := by
  cases l with
  | nil => simp [splitNl]
  | cons c cs =>
    unfold splitNl
    by_cases h : c = '\n'
    · simp [h]
    · simp only [if_neg h]
      cases splitNl cs <;> simp

theorem splitNl_length (l : List Char) :
    (splitNl l).length = l.count '\n' + 1 := by
  induction l with
  | nil => simp [splitNl]
  | cons c cs ih =>
    unfold splitNl
    by_cases h : c = '\n'
    · simp [h, List.count_cons, ih]
    · simp only [if_neg h]
      cases hs : splitNl cs with
      | nil => exact absurd hs (splitNl_ne_nil cs)
      | cons s rest =>
        rw [hs] at ih
        simp [List.count_cons, h] at ih ⊢
        omega

theorem segLen_of_not_mem {l : List Char} (h : '\n' ∉ l) :
    segLen l = l.length := by
  induction l with
  | nil => simp [segLen]
  | cons c cs ih =>
    have hc : c ≠ '\n' := by
      intro hc; exact h (hc ▸ List.mem_cons_self c cs)
    have hcs : '\n' ∉ cs := fun hm => h (List.mem_cons_of_mem c hm)
    simp [segLen, hcs, hc]

theorem splitNl_of_not_mem {l : List Char} (h : '\n' ∉ l) :
    splitNl l = [l] := by
  induction l with
  | nil => simp [splitNl]
  | cons c cs ih =>
    have hc : c ≠ '\n' := by
      intro hc; exact h (hc ▸ List.mem_cons_self c cs)
    have hcs : '\n' ∉ cs := fun hm => h (List.mem_cons_of_mem c hm)
    simp [splitNl, hc, ih hcs]

theorem splitNl_lastLen (l : List Char) :
    ((splitNl l).getLast?.getD []).length = segLen l := by
  induction l with
  | nil => simp [splitNl, segLen]
  | cons c cs ih =>
    unfold splitNl
    by_cases h : c = '\n'
    · simp only [if_pos h, List.getLast?_cons, Option.getD_some]
      rw [ih]
      by_cases hm : '\n' ∈ cs
      · simp [segLen, h, hm]
      · simp [segLen, h, hm, segLen_of_not_mem hm]
    · simp only [if_neg h]
      cases hs : splitNl cs with
      | nil => exact absurd hs (splitNl_ne_nil cs)
      | cons s rest =>
        cases rest with
        | nil =>
          have hcount : cs.count '\n' + 1 = 1 := by
            rw [← splitNl_length cs, hs]; rfl
          have hm : '\n' ∉ cs := by
            intro hmem
            have hpos : 0 < cs.count '\n' := List.count_pos_iff.mpr hmem
            omega
          have hcs : splitNl cs = [cs] := splitNl_of_not_mem hm
          rw [hcs] at hs
          injection hs with h1 h2
          subst h1
          simp [segLen, hm, h]
        | cons s2 rest2 =>
          have hm : '\n' ∈ cs := by
            have hlen : cs.count '\n' + 1 = rest2.length + 2 := by
              rw [← splitNl_length cs, hs]; simp
            exact List.count_pos_iff.mp (by omega)
          rw [hs] at ih
          simp only [List.getLast?_cons, Option.getD_some] at ih ⊢
          rw [ih]
          simp [segLen, hm, h]

theorem jsSubstring_zero (l : List Char) (p : Nat) :
    jsSubstring l 0 p = l.take p := by
  simp [jsSubstring]

theorem getLast?_drop_of_lt {α : Type} (l : List α) (k : Nat)
    (h : k < l.length) : (l.drop k).getLast? = l.getLast? := by
  induction l generalizing k with
  | nil => simp at h
  | cons a as ih =>
    cases k with
    | zero => simp
    | succ k' =>
      have hk : k' < as.length := by simpa using h
      simp only [List.drop_succ_cons]
      rw [ih k' hk]
      cases as with
      | nil => simp at hk
      | cons b bs => simp [List.getLast?_cons_cons]

/-- A sequence of `saveToHistory` commits applied in order, starting from a
fresh session. -/
def commitSeq (cs : List (List Char)) : EditorState :=
  cs.foldl (fun s c => saveToHistory c s) (initialState 0)

theorem commitSeq_spec (cs : List (List Char)) :
    (commitSeq cs).historyIndex = (cs.length : Int) - 1 ∧
    (commitSeq cs).history = cs.drop (cs.length - 50) := by
  induction cs using List.reverseRecOn with
  | nil => constructor <;> rfl
  | append_singleton cs c ih =>
    obtain ⟨ihIdx, ihHist⟩ := ih
    have hstep : commitSeq (cs ++ [c]) = saveToHistory c (commitSeq cs) := by
      simp [commitSeq, List.foldl_append]
    have hlen : (commitSeq cs).history.length = cs.length - (cs.length - 50) := by
      rw [ihHist, List.length_drop]
    constructor
    · rw [hstep]
      show (commitSeq cs).historyIndex + 1 = _
      rw [ihIdx]
      simp only [List.length_append, List.length_singleton]
      push_cast
      omega
    · rw [hstep]
      show keepLast50 (jsSliceTo (commitSeq cs).history
        ((commitSeq cs).historyIndex + 1) ++ [c]) = _
      rw [ihIdx]
      have he : (cs.length : Int) - 1 + 1 = (cs.length : Int) := by omega
      rw [he]
      have hslice : jsSliceTo (commitSeq cs).history (cs.length : Int)
          = (commitSeq cs).history := by
        unfold jsSliceTo
        rw [if_neg (by omega : ¬ ((cs.length : Int) < 0))]
        rw [Int.toNat_natCast]
        exact List.take_of_length_le (by omega)
      rw [hslice, ihHist]
      have hk : cs.length - 50 ≤ cs.length := by omega
      rw [← List.drop_append_of_le_length hk]
      unfold keepLast50
      rw [List.drop_drop, List.length_drop, List.length_append]
      congr 1
      simp only [List.length_append, List.length_singleton]
      omega

/-! ## Claim theorems -/

set_option maxRecDepth 4000 in
/-- Claim C1 (code bug, failing-input evaluation).  The claim states that
whenever the history is non-empty `0 ≤ historyIndex < length`, and that
immediately after every commit `historyIndex = length - 1`, including
commits performed at the 50-entry capacity.  The code violates this at
capacity: after 50 commits the invariant still holds (`historyIndex = 49`,
`length = 50`), but the 51st commit evicts the oldest entry while still
incrementing `historyIndex`, leaving `historyIndex = 50 = length`. -/
theorem c1_commit_at_capacity_breaks_index :
    (edits 50).historyIndex = 49 ∧ (edits 50).history.length = 50 ∧
    (edits 51).historyIndex = 50 ∧ (edits 51).history.length = 50 := by
  decide

/-- Claim C2 (confirmed).  Every single commit leaves at most 50 history
entries, and for every sequence of commits from a fresh session the
resulting history is exactly the sequence of committed contents with all
but the most recent 50 dropped from the front — the oldest entries are the
ones evicted (FIFO). -/
theorem c2_history_cap_and_fifo :
    (∀ (s : EditorState) (c : List Char),
        (saveToHistory c s).history.length ≤ 50) ∧
    (∀ cs : List (List Char),
        (commitSeq cs).history = cs.drop (cs.length - 50) ∧
        (commitSeq cs).history.length ≤ 50) := by
  constructor
  · intro s c
    show (keepLast50 _).length ≤ 50
    unfold keepLast50
    rw [List.length_drop]
    omega
  · intro cs
    obtain ⟨_, h⟩ := commitSeq_spec cs
    refine ⟨h, ?_⟩
    rw [h, List.length_drop]
    omega

/-- Claim C3 (counterexample).  The claim states that every offset passed to
a cursor update is clamped to `[0, content.length]` and that no reachable
state stores a cursor offset greater than the content length.  The code
performs no clamping: a content change reporting caret position 100 on an
empty document stores 100 in the cursor registry. -/
theorem c3_unclamped_cursor_counterexample :
    ¬ (∀ u ∈ cex3State.users, u.cursor ≤ cex3State.doc.content.length) := by
  decide

/-- Claim C3 (amended).  A cursor update stores the offset exactly as
passed, without any clamping: after a content change reporting caret
position `p`, the registry entry of user 1 holds `p` verbatim (last write
wins); out-of-range offsets are clamped only on read, by
`getCursorPosition`. -/
theorem c3_cursor_stored_verbatim (s : EditorState) (c : List Char)
    (p now : Nat) (u : User)
    (hu : u ∈ (handleContentChange c p now s).users) (hid : u.id = 1) :
    u.cursor = p := by
  simp only [handleContentChange, List.mem_map] at hu
  obtain ⟨v, hv, huv⟩ := hu
  by_cases h : v.id = 1
  · rw [if_pos h] at huv
    rw [← huv]
  · rw [if_neg h] at huv
    rw [← huv] at hid
    exact absurd hid h

/-- Witness for claim C3 (amended): after a content change reporting caret
position 7, the registry entry of user 1 holds cursor 7. -/
theorem c3_cursor_stored_verbatim_witness :
    ({ id := 1, name := "You".data, color := "#3B82F6".data,
       cursor := 7, active := true } : User).cursor = 7 :=
  c3_cursor_stored_verbatim (initialState 0) [] 7 0 _ (by decide) (by decide)

/-- Claim C4 (counterexample).  The claim states that formatting insertion
and file import, like keystroke edits, each increment `version` by one and
update `lastModified`.  In the code `applyFormatting` leaves `version`
unchanged, and `importDocument` leaves `lastModified` unchanged. -/
theorem c4_version_counterexample :
    (applyFormatting Format.bold 0 2 selState).doc.version ≠
      selState.doc.version + 1 ∧
    (importDocument "f.txt".data "hi".data selState).doc.lastModified =
      selState.doc.lastModified := by
  decide

/-- Claim C4 (amended).  A keystroke edit increments `version` by exactly
one and stamps `lastModified` with the current time; a file import
increments `version` by exactly one but leaves `lastModified` unchanged;
formatting insertion changes neither `version` nor `lastModified`; and no
operation ever decreases (or resets) `version`. -/
theorem c4_version_discipline :
    (∀ (s : EditorState) (c : List Char) (p now : Nat),
        (handleContentChange c p now s).doc.version = s.doc.version + 1 ∧
        (handleContentChange c p now s).doc.lastModified = now) ∧
    (∀ (s : EditorState) (n t : List Char),
        (importDocument n t s).doc.version = s.doc.version + 1 ∧
        (importDocument n t s).doc.lastModified = s.doc.lastModified) ∧
    (∀ (s : EditorState) (f : Format) (a b : Nat),
        (applyFormatting f a b s).doc.version = s.doc.version ∧
        (applyFormatting f a b s).doc.lastModified = s.doc.lastModified) ∧
    (∀ (op : Op) (s : EditorState),
        s.doc.version ≤ (applyOp op s).doc.version) := by
  refine ⟨fun s c p now => ⟨rfl, rfl⟩, fun s n t => ⟨rfl, rfl⟩, ?_, ?_⟩
  · intro s f a b
    unfold applyFormatting
    by_cases h : s.selectedText = []
    · rw [if_pos h]; exact ⟨rfl, rfl⟩
    · rw [if_neg h]
      cases f <;> exact ⟨rfl, rfl⟩
  · intro op s
    cases op with
    | contentChange c p now => exact Nat.le_succ _
    | debounce =>
        show s.doc.version ≤ (debounceFire s).doc.version
        unfold debounceFire
        cases s.pendingCommit <;> exact le_refl _
    | titleChange t => exact le_refl _
    | textSelection a b => exact le_refl _
    | formatApply f a b =>
        show s.doc.version ≤ (applyFormatting f a b s).doc.version
        unfold applyFormatting
        by_cases h : s.selectedText = []
        · rw [if_pos h]
        · rw [if_neg h]
          cases f <;> exact le_refl _
    | undoClick =>
        show s.doc.version ≤ (undo s).doc.version
        unfold undo
        by_cases h : s.historyIndex > 0
        · rw [if_pos h]
        · rw [if_neg h]
    | redoClick =>
        show s.doc.version ≤ (redo s).doc.version
        unfold redo
        by_cases h : s.historyIndex < (s.history.length : Int) - 1
        · rw [if_pos h]
        · rw [if_neg h]
    | importFile n t => exact Nat.le_succ _
    | remoteCursor u p => exact le_refl _

/-- Claim C5 (confirmed).  A commit truncates the entries beyond the
current `historyIndex` before appending, so redo is unavailable immediately
after any commit (for any state with `historyIndex ≥ -1`, which every
reachable state satisfies); and in the concrete scenario commit "a",
commit "ab", commit "abc", undo, undo, commit "az", the history ends as
["a", "az"] with redo a no-op. -/
theorem c5_commit_clears_redo :
    (∀ (s : EditorState) (c : List Char), s.historyIndex ≥ -1 →
        canRedo (saveToHistory c s) = false ∧
        redo (saveToHistory c s) = saveToHistory c s) ∧
    (sABC.historyIndex = 2 ∧ sUndo1.doc.content = "ab".data ∧
     sUndo2.doc.content = "a".data ∧
     sAz.history = ["a".data, "az".data] ∧
     canRedo sAz = false ∧ redo sAz = sAz) := by
  constructor
  · intro s c h
    have hidx : (saveToHistory c s).historyIndex = s.historyIndex + 1 := rfl
    have hslice : jsSliceTo s.history (s.historyIndex + 1)
        = s.history.take (s.historyIndex + 1).toNat := by
      unfold jsSliceTo
      rw [if_neg (by omega : ¬ (s.historyIndex + 1 < 0))]
    have htn : ((s.historyIndex + 1).toNat : Int) = s.historyIndex + 1 :=
      Int.toNat_of_nonneg (by omega)
    have hlen : ((saveToHistory c s).history.length : Int)
        ≤ s.historyIndex + 2 := by
      show ((keepLast50 (jsSliceTo s.history (s.historyIndex + 1)
        ++ [c])).length : Int) ≤ _
      rw [hslice]
      unfold keepLast50
      rw [List.length_drop, List.length_append, List.length_singleton,
        List.length_take]
      omega
    have hcond : ¬ ((saveToHistory c s).historyIndex <
        ((saveToHistory c s).history.length : Int) - 1) := by
      rw [hidx]; omega
    constructor
    · simp [canRedo, hcond]
    · unfold redo
      rw [if_neg hcond]
  · refine ⟨by decide, by decide, by decide, by decide, by decide, by decide⟩

/-- Witness for claim C5: after a commit on a fresh session, redo is
unavailable and a redo click is a no-op. -/
theorem c5_commit_clears_redo_witness :
    canRedo (saveToHistory "q".data (initialState 0)) = false ∧
    redo (saveToHistory "q".data (initialState 0)) =
      saveToHistory "q".data (initialState 0) :=
  c5_commit_clears_redo.1 (initialState 0) "q".data (by decide)

/-- Claim C6 (counterexample).  The claim states that at every state whose
`historyIndex` is not at a boundary, undo followed by redo restores the
document content.  It fails when the document content has drifted from the
current history entry: after committing "a", "ab", "abc", undoing once
(content "ab", index 1 — strictly between the boundaries 0 and 2), and
applying bold formatting (content "**ab**", no commit), undo-then-redo
yields "ab", not "**ab**". -/
theorem c6_undo_redo_counterexample :
    0 < sFmt.historyIndex ∧
    sFmt.historyIndex < (sFmt.history.length : Int) - 1 ∧
    (redo (undo sFmt)).doc.content ≠ sFmt.doc.content := by
  decide

/-- Claim C6 (amended).  For every state whose `historyIndex` is not at a
boundary and whose document content agrees with the current history entry
(no uncommitted edit pending), undo followed by redo restores the document
content exactly. -/
theorem c6_undo_redo_roundtrip (s : EditorState)
    (h0 : 0 < s.historyIndex)
    (h1 : s.historyIndex < (s.history.length : Int) - 1)
    (hsync : s.doc.content = jsNth s.history s.historyIndex) :
    (redo (undo s)).doc.content = s.doc.content := by
  have hu : undo s =
      { s with
        historyIndex := s.historyIndex - 1
        doc := { s.doc with
                 content := jsNth s.history (s.historyIndex - 1) } } := by
    unfold undo
    rw [if_pos h0]
  rw [hu]
  unfold redo
  rw [if_pos (by simpa using (by omega :
    s.historyIndex - 1 < (s.history.length : Int) - 1))]
  simp only []
  rw [Int.sub_add_cancel, ← hsync]

/-- Witness for claim C6 (amended): after the three commits and one undo
(content "ab", index 1, in sync with the history), undo-then-redo restores
the content. -/
theorem c6_undo_redo_roundtrip_witness :
    (redo (undo sUndo1)).doc.content = sUndo1.doc.content :=
  c6_undo_redo_roundtrip sUndo1 (by decide) (by decide) (by decide)

/-- Claim C7 (confirmed).  For every content and offset,
`getCursorPosition` returns a 1-based line equal to the number of
line-break-delimited segments of the prefix (one more than the number of
line breaks before the offset) and a 1-based column equal to the length of
the final segment plus one; in particular `getCursorPosition 0 ""` is
`(1, 1)` and `getCursorPosition 5 "ab\ncd"` is `(2, 3)`. -/
theorem c7_position_of_spec :
    (∀ (content : List Char) (position : Nat),
        getCursorPosition position content =
          ((content.take position).count '\n' + 1,
           segLen (content.take position) + 1)) ∧
    getCursorPosition 0 [] = (1, 1) ∧
    getCursorPosition 5 "ab\ncd".data = (2, 3) := by
  refine ⟨fun content position => ?_, by decide, by decide⟩
  unfold getCursorPosition
  rw [jsSubstring_zero]
  simp only []
  rw [splitNl_length, splitNl_lastLen]

/-- Claim C8 (confirmed).  Reading a cursor position is clamped and total:
for every offset strictly greater than the content length,
`getCursorPosition` returns the same line and column as at the content
length, so a stale out-of-range cursor never fails to render. -/
theorem c8_position_clamped_on_read (content : List Char) (offset : Nat)
    (h : content.length < offset) :
    getCursorPosition offset content =
      getCursorPosition content.length content := by
  unfold getCursorPosition
  rw [jsSubstring_zero, jsSubstring_zero, List.take_length,
    List.take_of_length_le (le_of_lt h)]

/-- Witness for claim C8: offset 9 on a 5-character content renders as the
position at offset 5. -/
theorem c8_position_clamped_on_read_witness :
    getCursorPosition 9 "ab\ncd".data =
      getCursorPosition ("ab\ncd".data.length) "ab\ncd".data :=
  c8_position_clamped_on_read "ab\ncd".data 9 (by decide)

/-- Claim C9 (confirmed).  Importing a file replaces the content with the
text of the file, sets the title to the file name with its extension
stripped, bumps `version`, and commits the new content to the history
synchronously (the index advances and the new content is the last entry,
while the pending debounce callback is untouched); concretely, the name
"notes.txt" yields the title "notes". -/
theorem c9_import_document (s : EditorState) (fileName fileText : List Char) :
    (importDocument fileName fileText s).doc.content = fileText ∧
    (importDocument fileName fileText s).doc.title = stripExt fileName ∧
    (importDocument fileName fileText s).doc.version = s.doc.version + 1 ∧
    (importDocument fileName fileText s).history.getLast? = some fileText ∧
    (importDocument fileName fileText s).historyIndex = s.historyIndex + 1 ∧
    (importDocument fileName fileText s).pendingCommit = s.pendingCommit ∧
    stripExt "notes.txt".data = "notes".data := by
  refine ⟨rfl, rfl, rfl, ?_, rfl, rfl, by decide⟩
  show (keepLast50 (jsSliceTo s.history (s.historyIndex + 1)
    ++ [fileText])).getLast? = some fileText
  unfold keepLast50
  rw [getLast?_drop_of_lt _ _ (by
    rw [List.length_append, List.length_singleton]
    omega)]
  exact List.getLast?_concat _

/-- Claim C10 (confirmed).  With a non-empty selection, `applyFormatting`
changes only the document content — splicing the marker-wrapped selection
between the text before the selection start and the text after the
selection end — while `version`, `lastModified`, the history entries, the
history index, and the pending debounce commit are all unchanged. -/
theorem c10_formatting_frame (s : EditorState) (f : Format) (a b : Nat)
    (h : s.selectedText ≠ []) :
    (applyFormatting f a b s).doc.content =
      jsSubstring s.doc.content 0 a ++ wrapMarkers f s.selectedText ++
        jsSubstringFrom s.doc.content b ∧
    (applyFormatting f a b s).doc.version = s.doc.version ∧
    (applyFormatting f a b s).doc.lastModified = s.doc.lastModified ∧
    (applyFormatting f a b s).history = s.history ∧
    (applyFormatting f a b s).historyIndex = s.historyIndex ∧
    (applyFormatting f a b s).pendingCommit = s.pendingCommit := by
  unfold applyFormatting
  rw [if_neg h]
  cases f <;> exact ⟨rfl, rfl, rfl, rfl, rfl, rfl⟩

/-- Witness for claim C10: bold formatting of the selection "ab" in the
2-character document changes the content to "**ab**" and nothing else. -/
theorem c10_formatting_frame_witness :
    (applyFormatting Format.bold 0 2 selState).doc.content =
      jsSubstring selState.doc.content 0 0 ++
        wrapMarkers Format.bold selState.selectedText ++
        jsSubstringFrom selState.doc.content 2 ∧
    (applyFormatting Format.bold 0 2 selState).doc.version =
      selState.doc.version ∧
    (applyFormatting Format.bold 0 2 selState).doc.lastModified =
      selState.doc.lastModified ∧
    (applyFormatting Format.bold 0 2 selState).history = selState.history ∧
    (applyFormatting Format.bold 0 2 selState).historyIndex =
      selState.historyIndex ∧
    (applyFormatting Format.bold 0 2 selState).pendingCommit =
      selState.pendingCommit :=
  c10_formatting_frame selState Format.bold 0 2 (by decide)
